import Mathlib

/-!
# Verification of the ares parallel runtime and HLIR lowering passes

Shallow embedding of:
* `src/runtime/CVSemaphore.h` — the virtual semaphore (`VSem` / `CVSemaphore`);
* `src/runtime/runtime.cpp` — the C-ABI runtime facade (`__ares_create_synch`,
  `__ares_queue_func`, `__ares_finish_func`, `__ares_await_synch`, ...);
* `src/hlir/src/HLIR.cpp` — the lowering passes (`lowerParallelFor_`,
  `lowerParallelReduce_`, `lowerTask_`) and the body-function constructors
  (`HLIRParallelFor::HLIRParallelFor`).

Machine integers are modelled as `Int`/`Nat` with explicit reductions modulo
`2^32` where the C code performs 32-bit arithmetic.
-/

namespace AresSpec

/-! ## Virtual semaphore (`CVSemaphore.h`)

State of a `CVSemaphore`: the signed counter `count_` and the cap `maxCount_`
(`0` means unbounded).  The pthread mutex and condition variable are not part
of the abstract state; blocking is modelled by returning `none` from an
operation that cannot complete without help from another thread. -/

structure VSem where
  count : Int
  maxCount : Int
deriving DecidableEq, Repr

/-- `CVSemaphore(int count)` — the one-argument constructor sets `maxCount_ = 0`. -/
def mkVSem1 (count : Int) : VSem := ⟨count, 0⟩

/-- `CVSemaphore(int count, int maxCount)`. -/
def mkVSem (count maxCount : Int) : VSem := ⟨count, maxCount⟩

/-- `CVSemaphore::release()`: increment `count_` if `maxCount_ == 0 || count_ < maxCount_`,
then unconditionally `pthread_cond_signal` (the `Bool` component records that the
signal is always sent). -/
def release (s : VSem) : VSem × Bool :=
  (if s.maxCount = 0 ∨ s.count < s.maxCount then ⟨s.count + 1, s.maxCount⟩ else s, true)

/-- `CVSemaphore::acquire()`: loop `while (count_ <= 0) pthread_cond_wait(...)`,
then `--count_; return true`.  With no concurrent `release`, a call that starts
with `count_ ≤ 0` never returns, modelled as `none`; a call that returns yields
the decremented state and the returned boolean. -/
def acquire (s : VSem) : Option (VSem × Bool) :=
  if 0 < s.count then some (⟨s.count - 1, s.maxCount⟩, true) else none

/-- `CVSemaphore::acquire(double dt)`: as `acquire`, but
`pthread_cond_timedwait` is used in the wait loop; a nonzero return from it
(deadline reached) makes the function unlock and `return false` with `count_`
untouched.  `timedOut` records whether the wait reaches the deadline while
`count_ ≤ 0`.  The outcome is reported only through the returned boolean. -/
def acquireTimed (s : VSem) (timedOut : Bool) : Option (VSem × Bool) :=
  if 0 < s.count then some (⟨s.count - 1, s.maxCount⟩, true)
  else if timedOut then some (s, false)
  else none

/-- `CVSemaphore::tryAcquire()`: decrement and return `true` when `count_ > 0`,
otherwise return `false` with the state unchanged. -/
def tryAcquire (s : VSem) : VSem × Bool :=
  if 0 < s.count then (⟨s.count - 1, s.maxCount⟩, true) else (s, false)

/-- Completed operations on a semaphore, as interleaved by any set of threads.
An `acquire` that is still blocked has not yet changed the state, so a history
of completed operations is a list of these. -/
inductive VOp
  | release
  | acquire
  | tryAcquire
deriving DecidableEq, Repr

/-- Effect of one completed operation on the semaphore state.  A (blocked)
`acquire`/`tryAcquire` arriving at `count_ ≤ 0` leaves the count unchanged
(the decrement of a blocked `acquire` happens only once it completes, i.e.
once it appears later in the history at a state with a positive count). -/
def step (s : VSem) : VOp → VSem
  | VOp.release => (release s).1
  | VOp.acquire => (match acquire s with | some (s', _) => s' | none => s)
  | VOp.tryAcquire => (tryAcquire s).1

/-- Run a history of completed operations. -/
def run (s : VSem) : List VOp → VSem
  | [] => s
  | op :: ops => run (step s op) ops

/-! ## Runtime facade (`runtime.cpp`) -/

/-- `Synch::Synch(int count)` initializes its semaphore as `sem_(-count)`,
via the one-argument `CVSemaphore` constructor (`maxCount_ = 0`). -/
def mkSynch (count : Int) : VSem := mkVSem1 (-count)

/-- Two-complement interpretation of a 32-bit value, as performed when the
`uint32_t` expression `count - 1` is passed to `Synch::Synch(int count)`. -/
def toInt32 (x : Nat) : Int :=
  if x % 4294967296 < 2147483648 then ((x % 4294967296 : Nat) : Int)
  else ((x % 4294967296 : Nat) : Int) - 4294967296

/-- `__ares_create_synch(uint32_t count)`: `new Synch(count - 1)`, the
subtraction wrapping in `uint32_t` arithmetic. -/
def aresCreateSynch (count : Nat) : VSem :=
  mkSynch (toInt32 ((count + 4294967295) % 4294967296))

/-- `__ares_await_synch(void* synch)`: `s->await()`, i.e. a blocking
`acquire` on the underlying semaphore (then `delete s`). -/
def aresAwaitSynch (s : VSem) : Option (VSem × Bool) := acquire s

/-! ### `__ares_queue_func` and the work-item payload

`runtime.cpp` declares

    struct FuncArg { Synch* synch; int n; };
    void __ares_queue_func(void* synch, void* fp, uint32_t index, uint32_t priority)

and pushes `(fp, new FuncArg(synch, index), priority)` onto the thread pool.
Pointers and function pointers are modelled as `Nat` identifiers. -/

/-- C parameter/field types, for comparing signatures and struct layouts. -/
inductive CType
  | ptr
  | i32
  | i64
deriving DecidableEq, Repr

/-- `struct FuncArg` from `runtime.cpp` (fields in declaration order:
`Synch* synch; int n;`). -/
structure FuncArg where
  synch : Nat
  n : Nat
deriving DecidableEq, Repr

/-- A thread-pool work item: `_threadPool->push(fn, arg, priority)`. -/
structure WorkItem where
  fn : Nat
  arg : FuncArg
  priority : Nat
deriving DecidableEq, Repr

/-- Body of `__ares_queue_func(void* synch, void* fp, uint32_t index,
uint32_t priority)` in `runtime.cpp`: push `(fp, FuncArg(synch, index), priority)`. -/
def aresQueueFunc (synch fp index pri : Nat) : WorkItem :=
  ⟨fp, ⟨synch, index⟩, pri⟩

/-- Parameter types of `__ares_queue_func` as defined in `runtime.cpp`:
`(void* synch, void* fp, uint32_t index, uint32_t priority)`. -/
def aresQueueFuncParams : List CType :=
  [CType.ptr, CType.ptr, CType.i32, CType.i32]

/-- Parameter types `lowerParallelFor_` declares for `__ares_queue_func`
(HLIR.cpp line 216: `{voidPtrTy, voidPtrTy, voidPtrTy, i32Ty, i32Ty}`), and
with which it emits the call `queue_func(synchPtr, argsPtr, bodyFunc, index, 1)`. -/
def loweredQueueFuncParams : List CType :=
  [CType.ptr, CType.ptr, CType.ptr, CType.i32, CType.i32]

/-- Field types of `struct FuncArg` in `runtime.cpp`: `{Synch*, int}`. -/
def funcArgFieldTypes : List CType := [CType.ptr, CType.i32]

/-- Field types of the argument triple the synthesized parallel-for body
function unpacks (`HLIRParallelFor::HLIRParallelFor`, HLIR.cpp line 419:
`{voidPtrTy, i32Ty, voidPtrTy}`); the captured-args pointer is read from
field 2. -/
def bodyTripleFieldTypes : List CType := [CType.ptr, CType.i32, CType.ptr]

/-! ## The queue loop emitted by `lowerParallelFor_` (HLIR.cpp lines 228-268)

The pass stores `start` into `index.ptr`, then *unconditionally* branches into
`pfor.queue.loop`.  The loop body loads the index, calls `queue_func` with it,
computes `nextIndex = index + 1` (i32 add), stores it back, and branches back
to the loop while `ICmpULT(nextIndex, end)` holds, otherwise to
`pfor.queue.exit`.  `queuedIndices start e` is the list of index values passed
to `queue_func`, with i32 values reduced modulo `2^32`. -/

/-- Reduce a value to its 32-bit representative. -/
def u32 (x : Nat) : Nat := x % 4294967296

/-- One do-while pass of `pfor.queue.loop`: queue `i`, then continue with
`nextIndex = u32 (i + 1)` while `nextIndex <u e`.  The fuel argument only
bounds the recursion; `queuedIndices` supplies enough fuel that it is never
exhausted for 32-bit inputs. -/
def queueLoopAux : Nat → Nat → Nat → List Nat
  | 0, _, i => [i]
  | fuel + 1, e, i =>
    if u32 (i + 1) < e then i :: queueLoopAux fuel e (u32 (i + 1)) else [i]

/-- Index values passed to `queue_func` by the emitted queue loop, for a
parallel-for over `[start, e)`. -/
def queuedIndices (start e : Nat) : List Nat :=
  queueLoopAux (u32 e) (u32 e) (u32 start)

/-! ## The synthesized parallel-for body function
(`HLIRParallelFor::HLIRParallelFor`, HLIR.cpp lines 393-445)

The constructor appends to the `entry` block, in creation order: a bitcast of
the opaque argument to the triple type, the GEP+load of `synch.ptr` (field 0),
the GEP of `index.ptr` (field 1), the GEP+load of `funcArgs.ptr` (field 2),
a no-op placeholder (stored as the `argsInsertion` attribute), a bitcast of
`synch.ptr` back to `void*`, the call to `__ares_finish_func(args)`, and
finally a `ret` created by `ReturnInst::Create` — the instruction stored as
the `insertion` attribute.  An emitter (and the lowering pass itself, for
`argsInsertion`) writes at an insertion attribute by `SetInsertPoint` on it,
which places new instructions immediately *before* that instruction. -/

/-- Instructions of the synthesized body's entry block.  `user k` stands for
the `k`-th instruction of the user's body IR, written at the reserved
insertion point. -/
inductive BInstr
  | bitcastArgs
  | gepSynch
  | loadSynch
  | gepIndex
  | gepFuncArgs
  | loadFuncArgs
  | noopArgsInsertion
  | bitcastSynch
  | callFinish
  | user (k : Nat)
  | ret
deriving DecidableEq, Repr

/-- The entry block as built by `HLIRParallelFor::HLIRParallelFor`, before the
emitter writes any user IR. -/
def pforEntryBlock : List BInstr :=
  [BInstr.bitcastArgs, BInstr.gepSynch, BInstr.loadSynch, BInstr.gepIndex,
   BInstr.gepFuncArgs, BInstr.loadFuncArgs, BInstr.noopArgsInsertion,
   BInstr.bitcastSynch, BInstr.callFinish, BInstr.ret]

/-- `IRBuilder::SetInsertPoint(target)` followed by instruction creation:
insert `new` immediately before the first occurrence of `target`. -/
def insertBefore (target : BInstr) (new : List BInstr) : List BInstr → List BInstr
  | [] => []
  | i :: rest =>
    if i = target then new ++ i :: rest else i :: insertBefore target new rest

/-- The body's entry block after the emitter writes `userIR` at the reserved
`insertion` attribute (the `ret` instruction). -/
def emitBody (userIR : List BInstr) : List BInstr :=
  insertBefore BInstr.ret userIR pforEntryBlock

/-! ## Capture-set discovery (`findExternalValues`, HLIR.cpp lines 87-99)

    void findExternalValues(Function* f, vector<Instruction*>& v){
      for(BasicBlock& bi : *f)
        for(Instruction& ii : bi)
          for(Value* vi : ii.operands())
            if(Instruction* ij = dyn_cast<Instruction>(vi))
              if(ij->getParent()->getParent() != f)
                v.push_back(ij);
    }

An operand is modelled by the identity `val` of its defining instruction, the
function `defFunc` holding that instruction, and its IR type `ty` (used by
`lowerParallelFor_` to build the captured-args struct fields). -/

structure Operand where
  val : Nat
  defFunc : Nat
  ty : Nat
deriving DecidableEq, Repr

/-- An instruction, reduced to its operand list (only instruction operands are
kept; non-instruction operands fail the `dyn_cast` and are never pushed). -/
structure SInstr where
  ops : List Operand
deriving DecidableEq, Repr

/-- Inner loop over one instruction's operands, with the `push_back`
accumulator. -/
def findExtOps (f : Nat) : List Operand → List Operand → List Operand
  | [], acc => acc
  | o :: rest, acc =>
    if o.defFunc ≠ f then findExtOps f rest (acc ++ [o]) else findExtOps f rest acc

/-- Middle loop over one block's instructions. -/
def findExtInstrs (f : Nat) : List SInstr → List Operand → List Operand
  | [], acc => acc
  | i :: rest, acc => findExtInstrs f rest (findExtOps f i.ops acc)

/-- Outer loop over the function's blocks. -/
def findExtBlocks (f : Nat) : List (List SInstr) → List Operand → List Operand
  | [], acc => acc
  | b :: rest, acc => findExtBlocks f rest (findExtInstrs f b acc)

/-- `findExternalValues(f, v)` on a body function given as its list of basic
blocks: the vector `v` after the nested loops, starting from empty. -/
def findExternalValues (f : Nat) (blocks : List (List SInstr)) : List Operand :=
  findExtBlocks f blocks []

/-- Field types of the captured-args struct `struct.func_args` built by
`lowerParallelFor_` (lines 170-178): one field per entry of the discovered
list, in order (`fields.push_back(vi->getType())`). -/
def captureFields (f : Nat) (blocks : List (List SInstr)) : List Nat :=
  (findExternalValues f blocks).map Operand.ty

/-! ## Task lowering: placement of the future await
(`HLIRModule::lowerTask_`, HLIR.cpp lines 284-372)

For a direct call site `C` of the task function, after emitting the arg-struct
allocation/stores and the `__ares_task_queue` call, the pass walks `C`'s uses;
at the first use whose user is an instruction it sets the insert point there
and creates, in order, the call `__ares_task_await_future(args)`, the GEP of
the return slot (`StructGEP(argsPtr, 2)`), and the load of that slot; it then
replaces *all* uses of `C` with the loaded value, breaks, and finally erases
`C` from its parent.  If `C` has no instruction user, no await is inserted and
`C` is simply erased.

Instructions are modelled by an id and the list of ids of the values they use;
the use enumeration of the IR provider is taken to present `C`'s users in
block order, so the first enumerated user is the first using instruction. -/

structure TIn where
  id : Nat
  ops : List Nat
deriving DecidableEq, Repr

/-- `inst.ops.contains c`: does `inst` use the result of the call with id `c`? -/
def usesVal (c : Nat) (inst : TIn) : Bool := inst.ops.contains c

/-- The index of the first instruction in the block that uses `c`. -/
def findFirstUse (c : Nat) : List TIn → Option Nat
  | [] => none
  | i :: rest =>
    if usesVal c i then some 0 else (findFirstUse c rest).map (· + 1)

/-- The `__ares_task_await_future(args)` call instruction. -/
def awaitInstr (aId argsId : Nat) : TIn := ⟨aId, [argsId]⟩

/-- The `retPtr = StructGEP(argsPtr, 2)` instruction. -/
def gepRetInstr (gId argsId : Nat) : TIn := ⟨gId, [argsId]⟩

/-- The `retVal = Load(retPtr)` instruction. -/
def loadRetInstr (rId gId : Nat) : TIn := ⟨rId, [gId]⟩

/-- Insert `await; gepRet; loadRet` immediately before the first instruction
using `c` (no change when no instruction uses `c`). -/
def insertAwait (c aId gId rId argsId : Nat) : List TIn → List TIn
  | [] => []
  | i :: rest =>
    if usesVal c i then
      awaitInstr aId argsId :: gepRetInstr gId argsId :: loadRetInstr rId gId :: i :: rest
    else
      i :: insertAwait c aId gId rId argsId rest

/-- `C->replaceAllUsesWith(retVal)` applied to one instruction. -/
def rewriteUses (c rId : Nat) (inst : TIn) : TIn :=
  ⟨inst.id, inst.ops.map (fun o => if o = c then rId else o)⟩

/-- The use-rewriting part of `lowerTask_` on `C`'s block: insert the await
sequence before the first user, replace all uses of `C` with the loaded
value, and erase `C` (`ci->eraseFromParent()`). -/
def lowerTaskUses (c aId gId rId argsId : Nat) (blk : List TIn) : List TIn :=
  ((insertAwait c aId gId rId argsId blk).map (rewriteUses c rId)).filter
    (fun i => i.id ≠ c)

/-! ## Parallel-reduce lowering (`HLIRModule::lowerParallelReduce_`,
HLIR.cpp lines 278-282)

    void HLIRModule::lowerParallelReduce_(HLIRParallelReduce* r){
      auto marker = r->get<HLIRInstruction>("marker");
      marker->removeFromParent();
    }

A module is a list of functions, a function a list of blocks, a block a list
of instruction ids.  `marker->removeFromParent()` removes the (unique) marker
instruction from its parent block; on blocks that do not contain the marker,
`List.erase` is the identity. -/

/-- The parallel-reduce lowering pass: remove the marker instruction, and
nothing else. -/
def lowerParallelReduce (marker : Nat) (m : List (List (List Nat))) :
    List (List (List Nat)) :=
  m.map (fun f => f.map (fun b => b.erase marker))

/-- All instruction ids of a module, in order. -/
def moduleInstrs (m : List (List (List Nat))) : List Nat :=
  m.flatMap (fun f => f.flatMap (fun b => b))

/-! ## Theorems -/

/-- A history consisting only of releases, on an unbounded semaphore, adds its
length to the count. -/
theorem run_replicate_release (m : Nat) (s : VSem) (h : s.maxCount = 0) :
    run s (List.replicate m VOp.release) = ⟨s.count + m, 0⟩ := by
  induction m generalizing s with
  | zero =>
    cases s
    simp_all [run]
  | succ m ih =>
    have hstep : step s VOp.release = ⟨s.count + 1, 0⟩ := by
      simp [step, release, h]
    rw [List.replicate_succ, run, hstep, ih ⟨s.count + 1, 0⟩ rfl]
    simp
    omega

/-- **C2** (confirmed): a VSem constructed with initial count `-(n-1)` (one-arg
constructor, `maxCount = 0`), for any `n ≥ 1`: after exactly `n` completed
`release` calls — any interleaving of `n` releases is a history of `n`
`release` operations — the count is `1`; one `acquire` then succeeds and
leaves `count = 0`; a further `acquire` on that state blocks (so exactly one
acquire succeeds); and after only `k < n` releases any `acquire` blocks. -/
theorem vsem_latch (n : Nat) (ops : List VOp) (hn : 1 ≤ n)
    (hlen : ops.length = n) (hrel : ∀ op ∈ ops, op = VOp.release) :
    (run (mkVSem1 (-((n : Int) - 1))) ops).count = 1
    ∧ acquire (run (mkVSem1 (-((n : Int) - 1))) ops) = some (⟨0, 0⟩, true)
    ∧ acquire (⟨0, 0⟩ : VSem) = none
    ∧ (∀ k, k < n →
        acquire (run (mkVSem1 (-((n : Int) - 1))) (List.replicate k VOp.release)) = none) := by
  have hops : ops = List.replicate n VOp.release := by
    rw [← hlen]
    exact List.eq_replicate_length.2 hrel
  subst hops
  have h1 : run (mkVSem1 (-((n : Int) - 1))) (List.replicate n VOp.release)
      = ⟨1, 0⟩ := by
    rw [run_replicate_release n _ rfl]
    simp [mkVSem1]
  refine ⟨by rw [h1], ?_, by simp [acquire], ?_⟩
  · rw [h1]
    simp [acquire]
  · intro k hk
    rw [run_replicate_release k _ rfl]
    simp [acquire, mkVSem1]
    omega

/-- Witness for `vsem_latch` at `n = 2`. -/
theorem vsem_latch_witness :
    (run (mkVSem1 (-((2 : Int) - 1))) [VOp.release, VOp.release]).count = 1
    ∧ acquire (run (mkVSem1 (-((2 : Int) - 1))) (List.replicate 1 VOp.release)) = none :=
  ⟨(vsem_latch 2 [VOp.release, VOp.release] (by decide) (by decide) (by decide)).1,
   (vsem_latch 2 [VOp.release, VOp.release] (by decide) (by decide) (by decide)).2.2.2
     1 (by decide)⟩

/-- **C7** (confirmed): `acquire(dt)` returns `false` exactly when the deadline
is reached while `count ≤ 0`, leaving the count unchanged; when `count > 0` it
decrements and returns `true` (without waiting); when `count ≤ 0` and the
deadline never fires it does not return.  The timeout is reported only through
the returned boolean. -/
theorem acquireTimed_spec (s : VSem) (t : Bool) :
    (s.count ≤ 0 → t = true → acquireTimed s t = some (s, false))
    ∧ (0 < s.count → acquireTimed s t = some (⟨s.count - 1, s.maxCount⟩, true))
    ∧ (s.count ≤ 0 → t = false → acquireTimed s t = none) := by
  refine ⟨fun h1 h2 => ?_, fun h => ?_, fun h1 h2 => ?_⟩
  · simp [acquireTimed, h2, not_lt.2 h1]
  · simp [acquireTimed, h]
  · simp [acquireTimed, h2, not_lt.2 h1]

/-- Witness for `acquireTimed_spec`: a timed-out wait on a zero count fails
and leaves the semaphore unchanged; with a positive count it succeeds. -/
theorem acquireTimed_spec_witness :
    acquireTimed (mkVSem1 0) true = some (mkVSem1 0, false)
    ∧ acquireTimed (mkVSem1 2) false = some (⟨1, 0⟩, true) :=
  ⟨(acquireTimed_spec (mkVSem1 0) true).1 (by decide) rfl,
   by simpa using (acquireTimed_spec (mkVSem1 2) false).2.1 (by decide)⟩

/-- `step` on a `release`, as a conditional. -/
theorem step_release (s : VSem) :
    step s VOp.release
      = if s.maxCount = 0 ∨ s.count < s.maxCount then ⟨s.count + 1, s.maxCount⟩
        else s := by
  simp [step, release]

/-- `step` on a completed `acquire`, as a conditional. -/
theorem step_acquire (s : VSem) :
    step s VOp.acquire
      = if 0 < s.count then ⟨s.count - 1, s.maxCount⟩ else s := by
  by_cases h : 0 < s.count <;> simp [step, acquire, h]

/-- `step` on a `tryAcquire`, as a conditional. -/
theorem step_tryAcquire (s : VSem) :
    step s VOp.tryAcquire
      = if 0 < s.count then ⟨s.count - 1, s.maxCount⟩ else s := by
  by_cases h : 0 < s.count <;> simp [step, tryAcquire, h]

/-- The cap invariant `maxCount = k ∧ 0 ≤ count ≤ k` is preserved by one
completed operation, for a nonzero cap. -/
theorem step_cap (k : Int) (hk : k ≠ 0) (s : VSem) (op : VOp)
    (hmax : s.maxCount = k) (h0 : 0 ≤ s.count) (h1 : s.count ≤ k) :
    (step s op).maxCount = k ∧ 0 ≤ (step s op).count ∧ (step s op).count ≤ k := by
  cases op with
  | release =>
    rw [step_release, hmax]
    split_ifs with h
    · rcases h with h | h
      · exact absurd h hk
      · refine ⟨rfl, ?_, ?_⟩
        · show (0 : Int) ≤ s.count + 1
          omega
        · show s.count + 1 ≤ k
          omega
    · exact ⟨hmax, h0, h1⟩
  | acquire =>
    rw [step_acquire]
    split_ifs with h
    · refine ⟨hmax, ?_, ?_⟩
      · show (0 : Int) ≤ s.count - 1
        omega
      · show s.count - 1 ≤ k
        omega
    · exact ⟨hmax, h0, h1⟩
  | tryAcquire =>
    rw [step_tryAcquire]
    split_ifs with h
    · refine ⟨hmax, ?_, ?_⟩
      · show (0 : Int) ≤ s.count - 1
        omega
      · show s.count - 1 ≤ k
        omega
    · exact ⟨hmax, h0, h1⟩

/-- The cap invariant is preserved by every history of completed operations. -/
theorem run_cap_invariant (k : Int) (hk : k ≠ 0) (ops : List VOp) (s : VSem)
    (hmax : s.maxCount = k) (h0 : 0 ≤ s.count) (h1 : s.count ≤ k) :
    (run s ops).maxCount = k ∧ 0 ≤ (run s ops).count ∧ (run s ops).count ≤ k := by
  induction ops generalizing s with
  | nil => exact ⟨hmax, h0, h1⟩
  | cons op ops ih =>
    rw [run]
    have h := step_cap k hk s op hmax h0 h1
    exact ih _ h.1 h.2.1 h.2.2

/-- **C8** (amended, proved): for a VSem constructed with `maxCount = k ≠ 0`
and an initial count `c` with `0 ≤ c ≤ k`, every history of completed acquire,
tryAcquire and release operations keeps `0 ≤ count ≤ k`; and a `release` at
the cap leaves the count unchanged while still sending the signal. -/
theorem vsem_cap (k c : Int) (ops : List VOp) (hk : k ≠ 0) (h0 : 0 ≤ c)
    (hc : c ≤ k) :
    (0 ≤ (run (mkVSem c k) ops).count ∧ (run (mkVSem c k) ops).count ≤ k)
    ∧ (∀ s : VSem, s.maxCount = k → s.count = k → release s = (s, true)) := by
  constructor
  · have h := run_cap_invariant k hk ops (mkVSem c k) rfl h0 hc
    exact ⟨h.2.1, h.2.2⟩
  · intro s hm hcnt
    simp [release, hm, hcnt, hk]

/-- Witness for `vsem_cap` at `k = 2`, `c = 1`, a release followed by an
acquire, and a release at the cap. -/
theorem vsem_cap_witness :
    (0 ≤ (run (mkVSem 1 2) [VOp.release, VOp.acquire]).count
      ∧ (run (mkVSem 1 2) [VOp.release, VOp.acquire]).count ≤ 2)
    ∧ release (mkVSem 2 2) = (mkVSem 2 2, true) :=
  ⟨(vsem_cap 2 1 [VOp.release, VOp.acquire] (by decide) (by decide) (by decide)).1,
   (vsem_cap 2 1 [VOp.release, VOp.acquire] (by decide) (by decide) (by decide)).2
     (mkVSem 2 2) rfl rfl⟩

/-- **C8** (counterexample to the claim as stated): a VSem may be constructed
with a negative initial count (the latch idiom); with initial count `-2` and
`maxCount = 5`, after a single completed `release` — and no thread inside a
critical section — the count is `-1`, violating `0 ≤ count`. -/
theorem vsem_cap_counterexample :
    ¬ (0 ≤ (run (mkVSem (-2) 5) [VOp.release]).count) := by decide

/-- **C10** (confirmed): whenever the blocking, no-timeout `acquire()` returns,
the returned boolean is `true`; a caller can never observe failure from it. -/
theorem acquire_always_true (s s' : VSem) (b : Bool)
    (h : acquire s = some (s', b)) : b = true := by
  by_cases hc : 0 < s.count
  · simp only [acquire, if_pos hc, Option.some.injEq, Prod.mk.injEq] at h
    exact h.2.symm
  · simp [acquire, hc] at h

/-- Witness for `acquire_always_true` at a concrete returning state. -/
theorem acquire_always_true_witness : (true : Bool) = true :=
  acquire_always_true (mkVSem1 1) (mkVSem1 0) true (by decide)

/-- **C1** (bug in `runtime.cpp`): `__ares_queue_func` as defined in the
runtime takes 4 parameters `(synch, fp, index, priority)` — it has no
captured-args parameter — while `lowerParallelFor_` declares it with 5
parameter types and emits the call `queue_func(synch, args, fn, index, 1)`;
and the pushed payload is the two-field `FuncArg{synch, index}`, not the
three-field triple `{synch, index, args}` that the synthesized body function
unpacks. -/
theorem queue_func_payload_mismatch :
    aresQueueFuncParams.length = 4
    ∧ loweredQueueFuncParams.length = 5
    ∧ aresQueueFuncParams ≠ loweredQueueFuncParams
    ∧ aresQueueFunc 7 8 9 1 = ⟨8, ⟨7, 9⟩, 1⟩
    ∧ funcArgFieldTypes.length = 2
    ∧ bodyTripleFieldTypes.length = 3
    ∧ funcArgFieldTypes ≠ bodyTripleFieldTypes := by decide

/-- **C3** (bug in `HLIR.cpp`): the lowered queue loop is a do-while that is
entered unconditionally, so the empty range `[5, 5)` still queues one
iteration at index `5` and the body function is invoked for it.  The
`create_synch(0)` part of the claim does hold: the synch starts at count `+1`
and the await acquires immediately without blocking. -/
theorem empty_range_queues_one_iteration :
    queuedIndices 5 5 = [5]
    ∧ (aresCreateSynch 0).count = 1
    ∧ aresAwaitSynch (aresCreateSynch 0) = some (⟨0, 0⟩, true) := by decide

/-- **C4** (bug in `HLIR.cpp`): the `insertion` attribute reserved for the
user's body IR is the `ret` instruction, which `HLIRParallelFor`'s constructor
creates *after* the `__ares_finish_func(args)` call; writing one user
instruction there therefore produces an entry block in which the user's code
sits between the finish call and the return — the body runs only after
`finish_func` has released the completion latch, contradicting the intended
shape `loads; body; finish_func; ret`. -/
theorem body_emitted_after_finish :
    emitBody [BInstr.user 0]
      = [BInstr.bitcastArgs, BInstr.gepSynch, BInstr.loadSynch, BInstr.gepIndex,
         BInstr.gepFuncArgs, BInstr.loadFuncArgs, BInstr.noopArgsInsertion,
         BInstr.bitcastSynch, BInstr.callFinish, BInstr.user 0, BInstr.ret] := by
  decide

/-- `findExtOps` appends the external operands of one instruction, in operand
order, to the accumulator. -/
theorem findExtOps_eq (f : Nat) (ops : List Operand) (acc : List Operand) :
    findExtOps f ops acc = acc ++ ops.filter (fun o => o.defFunc != f) := by
  induction ops generalizing acc with
  | nil => simp [findExtOps]
  | cons o rest ih =>
    by_cases h : o.defFunc = f
    · simp [findExtOps, h, ih, List.filter_cons]
    · simp [findExtOps, h, ih, List.filter_cons]

/-- `findExtInstrs` appends the external operands of a block's instructions. -/
theorem findExtInstrs_eq (f : Nat) (instrs : List SInstr) (acc : List Operand) :
    findExtInstrs f instrs acc
      = acc ++ instrs.flatMap (fun i => i.ops.filter (fun o => o.defFunc != f)) := by
  induction instrs generalizing acc with
  | nil => simp [findExtInstrs]
  | cons i rest ih =>
    simp [findExtInstrs, findExtOps_eq, ih]

/-- `findExtBlocks` appends the external operands of all blocks. -/
theorem findExtBlocks_eq (f : Nat) (blocks : List (List SInstr))
    (acc : List Operand) :
    findExtBlocks f blocks acc
      = acc ++ blocks.flatMap
          (fun b => b.flatMap (fun i => i.ops.filter (fun o => o.defFunc != f))) := by
  induction blocks generalizing acc with
  | nil => simp [findExtBlocks]
  | cons b rest ih =>
    simp [findExtBlocks, findExtInstrs_eq, ih]

/-- **C5** (amended, proved): capture-set discovery returns the body's
externally-defined operands in first-encounter (scan) order with one entry
per *occurrence* — no deduplication — and the captured-args struct gets one
field per occurrence. -/
theorem findExternalValues_occurrences (f : Nat) (blocks : List (List SInstr)) :
    findExternalValues f blocks
      = blocks.flatMap
          (fun b => b.flatMap (fun i => i.ops.filter (fun o => o.defFunc != f)))
    ∧ captureFields f blocks
      = (blocks.flatMap
          (fun b => b.flatMap (fun i => i.ops.filter (fun o => o.defFunc != f)))).map
          Operand.ty := by
  refine ⟨?_, ?_⟩
  · rw [findExternalValues, findExtBlocks_eq]
    simp
  · rw [captureFields, findExternalValues, findExtBlocks_eq]
    simp

/-- **C5** (counterexample to the claim as stated): a body whose single
instruction uses the same external value twice yields a capture list with that
value twice — the list is not deduplicated, and the struct gets two fields. -/
theorem findExternalValues_counterexample :
    findExternalValues 0 [[⟨[⟨5, 1, 2⟩, ⟨5, 1, 2⟩]⟩]] = [⟨5, 1, 2⟩, ⟨5, 1, 2⟩]
    ∧ ¬ (findExternalValues 0 [[⟨[⟨5, 1, 2⟩, ⟨5, 1, 2⟩]⟩]]).Nodup
    ∧ captureFields 0 [[⟨[⟨5, 1, 2⟩, ⟨5, 1, 2⟩]⟩]] = [2, 2] := by decide

/-- `insertAwait` places the await/gep/load sequence exactly at the position
of the first instruction that uses `c`. -/
theorem insertAwait_eq (c aId gId rId argsId : Nat) (blk : List TIn) (k : Nat)
    (hk : findFirstUse c blk = some k) :
    insertAwait c aId gId rId argsId blk
      = blk.take k
        ++ awaitInstr aId argsId :: gepRetInstr gId argsId ::
          loadRetInstr rId gId :: blk.drop k := by
  induction blk generalizing k with
  | nil => simp [findFirstUse] at hk
  | cons i rest ih =>
    by_cases h : usesVal c i
    · rw [findFirstUse] at hk
      rw [if_pos h] at hk
      obtain rfl : (0 : Nat) = k := Option.some_inj.1 hk
      simp [insertAwait, h]
    · rw [findFirstUse] at hk
      rw [if_neg h] at hk
      obtain ⟨k', hk', rfl⟩ := Option.map_eq_some'.1 hk
      rw [insertAwait, if_neg h, ih k' hk']
      simp [List.take_succ_cons, List.drop_succ_cons]

/-- After `rewriteUses c rId` (with `rId ≠ c`), an instruction no longer uses
`c`. -/
theorem rewriteUses_not_uses (c rId : Nat) (hr : rId ≠ c) (i : TIn) :
    c ∉ (rewriteUses c rId i).ops := by
  simp only [rewriteUses, List.mem_map]
  rintro ⟨o, _, ho⟩
  by_cases h : o = c
  · rw [if_pos h] at ho
    exact hr ho
  · rw [if_neg h] at ho
    exact h ho

/-- **C6** (confirmed): for a direct task call site `C` (id `c`) whose result
is used — its block has a first using instruction, at index `k` — the pass
inserts the `task_await_future(args)` call, the GEP of the return slot
(field 2) and its load immediately before that instruction, rewrites every use
of `C` to the loaded value, and erases `C`: the resulting block is the
original one split at `k`, with the await sequence in between, all uses of `c`
replaced by the loaded value `rId`, and no instruction with id `c` left.  The
ids `aId`, `gId`, `rId`, `argsId` of the inserted values are fresh (distinct
from `c`). -/
theorem task_await_at_first_use (c aId gId rId argsId : Nat) (blk : List TIn)
    (k : Nat) (hk : findFirstUse c blk = some k) (ha : aId ≠ c) (hg : gId ≠ c)
    (hr : rId ≠ c) (hargs : argsId ≠ c) :
    lowerTaskUses c aId gId rId argsId blk
      = ((blk.take k).map (rewriteUses c rId)).filter (fun i => i.id ≠ c)
        ++ awaitInstr aId argsId :: gepRetInstr gId argsId ::
          loadRetInstr rId gId ::
          ((blk.drop k).map (rewriteUses c rId)).filter (fun i => i.id ≠ c)
    ∧ (∀ i ∈ lowerTaskUses c aId gId rId argsId blk, i.id ≠ c ∧ c ∉ i.ops) := by
  have hrw : ∀ x ∈ [awaitInstr aId argsId, gepRetInstr gId argsId,
      loadRetInstr rId gId], rewriteUses c rId x = x := by
    intro x hx
    simp only [List.mem_cons, List.not_mem_nil, or_false] at hx
    rcases hx with rfl | rfl | rfl <;>
      simp [rewriteUses, awaitInstr, gepRetInstr, loadRetInstr, hargs, hg]
  have hmain :
      lowerTaskUses c aId gId rId argsId blk
        = ((blk.take k).map (rewriteUses c rId)).filter (fun i => i.id ≠ c)
          ++ awaitInstr aId argsId :: gepRetInstr gId argsId ::
            loadRetInstr rId gId ::
            ((blk.drop k).map (rewriteUses c rId)).filter (fun i => i.id ≠ c) := by
    rw [lowerTaskUses, insertAwait_eq c aId gId rId argsId blk k hk]
    rw [List.map_append, List.filter_append]
    congr 1
    rw [List.map_cons, List.map_cons, List.map_cons]
    rw [hrw _ (by simp), hrw _ (by simp), hrw _ (by simp)]
    rw [List.filter_cons, List.filter_cons, List.filter_cons]
    simp [awaitInstr, gepRetInstr, loadRetInstr, ha, hg, hr]
  refine ⟨hmain, ?_⟩
  intro i hi
  rw [lowerTaskUses] at hi
  rw [List.mem_filter] at hi
  obtain ⟨hi1, hi2⟩ := hi
  refine ⟨by simpa using hi2, ?_⟩
  rw [insertAwait_eq c aId gId rId argsId blk k hk] at hi1
  rw [List.map_append, List.mem_append] at hi1
  rcases hi1 with hi1 | hi1
  · obtain ⟨j, _, rfl⟩ := List.mem_map.1 hi1
    exact rewriteUses_not_uses c rId hr j
  · rw [List.map_cons, List.map_cons, List.map_cons] at hi1
    rw [hrw _ (by simp), hrw _ (by simp), hrw _ (by simp)] at hi1
    simp only [List.mem_cons] at hi1
    rcases hi1 with rfl | rfl | rfl | hi1
    · simp [awaitInstr]
      omega
    · simp [gepRetInstr]
      omega
    · simp [loadRetInstr]
      omega
    · obtain ⟨j, _, rfl⟩ := List.mem_map.1 hi1
      exact rewriteUses_not_uses c rId hr j

/-- Witness for `task_await_at_first_use`: block `[C = task(arg 0);
u2 = f(C); u3 = g(C, u2)]` with `c = 1`, fresh ids `10, 11, 12`, arg-struct
id `5`; the first user is at index 1; the lowered block is
`[await(5), gep(5), load(11), u2(12), u3(12, 2)]`. -/
theorem task_await_at_first_use_witness :
    lowerTaskUses 1 10 11 12 5 [⟨1, [0]⟩, ⟨2, [1]⟩, ⟨3, [1, 2]⟩]
      = [⟨10, [5]⟩, ⟨11, [5]⟩, ⟨12, [11]⟩, ⟨2, [12]⟩, ⟨3, [12, 2]⟩] := by
  rw [(task_await_at_first_use 1 10 11 12 5 [⟨1, [0]⟩, ⟨2, [1]⟩, ⟨3, [1, 2]⟩] 1
    (by decide) (by decide) (by decide) (by decide) (by decide)).1]
  decide

/-- `moduleInstrs` on a cons. -/
theorem moduleInstrs_cons (f : List (List Nat)) (fs : List (List (List Nat))) :
    moduleInstrs (f :: fs) = f.flatMap (fun b => b) ++ moduleInstrs fs := by
  simp [moduleInstrs]

/-- `lowerParallelReduce` on a cons. -/
theorem lowerParallelReduce_cons (marker : Nat) (f : List (List Nat))
    (fs : List (List (List Nat))) :
    lowerParallelReduce marker (f :: fs)
      = f.map (fun b => b.erase marker) :: lowerParallelReduce marker fs := by
  simp [lowerParallelReduce]

/-- Removing the marker from each block of one function leaves the count of
every other instruction unchanged. -/
theorem erase_blocks_count (marker j : Nat) (h : j ≠ marker)
    (f : List (List Nat)) :
    ((f.map (fun b => b.erase marker)).flatMap (fun b => b)).count j
      = (f.flatMap (fun b => b)).count j := by
  induction f with
  | nil => rfl
  | cons b bs ih =>
    rw [List.map_cons, List.flatMap_cons, List.flatMap_cons,
      List.count_append, List.count_append, ih, List.count_erase_of_ne h]

/-- Removing the marker from each block of one function emits nothing new. -/
theorem erase_blocks_subset (marker : Nat) (f : List (List Nat)) :
    ((f.map (fun b => b.erase marker)).flatMap (fun b => b))
      ⊆ f.flatMap (fun b => b) := by
  induction f with
  | nil => simp
  | cons b bs ih =>
    rw [List.map_cons, List.flatMap_cons, List.flatMap_cons]
    intro x hx
    rw [List.mem_append] at hx ⊢
    rcases hx with hx | hx
    · exact Or.inl (List.erase_subset _ _ hx)
    · exact Or.inr (ih hx)

/-- If a function holds the marker at most once, erasing it from every block
removes it. -/
theorem erase_blocks_not_mem (marker : Nat) (f : List (List Nat))
    (h : (f.flatMap (fun b => b)).count marker ≤ 1) :
    marker ∉ (f.map (fun b => b.erase marker)).flatMap (fun b => b) := by
  induction f with
  | nil => simp
  | cons b bs ih =>
    rw [List.flatMap_cons, List.count_append] at h
    rw [List.map_cons, List.flatMap_cons]
    intro hmem
    rw [List.mem_append] at hmem
    rcases hmem with hmem | hmem
    · have hc := List.count_pos_iff.2 hmem
      rw [List.count_erase_self] at hc
      omega
    · exact ih (by omega) hmem

/-- **C9** (confirmed): `lowerParallelReduce_` removes the caller-side marker
and changes nothing else — the module keeps its functions and blocks, every
instruction other than the marker keeps its multiplicity, no instruction is
emitted that was not already present (in particular no fan-out, combine or
runtime-call instructions), and the marker itself — a unique instruction, so
occurring at most once — is gone. -/
theorem lowerParallelReduce_frame (marker : Nat) (m : List (List (List Nat))) :
    (lowerParallelReduce marker m).length = m.length
    ∧ (lowerParallelReduce marker m).map List.length = m.map List.length
    ∧ (∀ j, j ≠ marker →
        (moduleInstrs (lowerParallelReduce marker m)).count j
          = (moduleInstrs m).count j)
    ∧ moduleInstrs (lowerParallelReduce marker m) ⊆ moduleInstrs m
    ∧ ((moduleInstrs m).count marker ≤ 1 →
        marker ∉ moduleInstrs (lowerParallelReduce marker m)) := by
  induction m with
  | nil =>
    exact ⟨rfl, rfl, fun j _ => rfl, fun x hx => hx, fun _ => by simp [moduleInstrs, lowerParallelReduce]⟩
  | cons f fs ih =>
    rw [lowerParallelReduce_cons, moduleInstrs_cons, moduleInstrs_cons]
    refine ⟨?_, ?_, ?_, ?_, ?_⟩
    · simp [ih.1]
    · simp [ih.2.1]
    · intro j hj
      rw [List.count_append, List.count_append, erase_blocks_count marker j hj,
        ih.2.2.1 j hj]
    · intro x hx
      rw [List.mem_append] at hx ⊢
      rcases hx with hx | hx
      · exact Or.inl (erase_blocks_subset marker f hx)
      · exact Or.inr (ih.2.2.2.1 hx)
    · intro h hmem
      rw [List.count_append] at h
      rw [List.mem_append] at hmem
      rcases hmem with hmem | hmem
      · exact erase_blocks_not_mem marker f (by omega) hmem
      · exact ih.2.2.2.2 (by omega) hmem

/-- Witness for `lowerParallelReduce_frame` on a two-function module whose
first function's block holds the marker `7`. -/
theorem lowerParallelReduce_frame_witness :
    (lowerParallelReduce 7 [[[7, 3]], [[5]]]).length = 2
    ∧ (moduleInstrs (lowerParallelReduce 7 [[[7, 3]], [[5]]])).count 3
        = (moduleInstrs [[[7, 3]], [[5]]]).count 3
    ∧ 7 ∉ moduleInstrs (lowerParallelReduce 7 [[[7, 3]], [[5]]]) :=
  ⟨((lowerParallelReduce_frame 7 [[[7, 3]], [[5]]]).1).trans (by decide),
   (lowerParallelReduce_frame 7 [[[7, 3]], [[5]]]).2.2.1 3 (by decide),
   (lowerParallelReduce_frame 7 [[[7, 3]], [[5]]]).2.2.2.2 (by decide)⟩

end AresSpec
